import Mathlib

/-!
Shallow embedding of the kurt fixed-object codec (`src/kurt/fixed_objects.py`).
Bytes are modelled as natural numbers below 256; byte strings as `List Nat`.
Fallible Python code (construct parse errors, assertions, raised exceptions)
is modelled with `Option` / `Except`.
-/

namespace Kurt

/-- Embedding of `Bitmap._int`: the variable-length integer decoder.
Reads one byte `b`; if `b ≤ 223` the value is `b`; if `b ≤ 254` one more
byte `c` follows and the value is `(b - 224) * 256 + c`; if `b = 255` the
value is the big-endian 32-bit quantity in the next four bytes.
Returns the value and the remaining input, or `none` on truncation. -/
def parseInt : List Nat → Option (Nat × List Nat)
  | [] => none
  | b :: rest =>
    if b ≤ 223 then some (b, rest)
    else if b ≤ 254 then
      match rest with
      | [] => none
      | c :: rest2 => some ((b - 224) * 256 + c, rest2)
    else
      match rest with
      | b0 :: b1 :: b2 :: b3 :: rest2 =>
          some (((b0 * 256 + b1) * 256 + b2) * 256 + b3, rest2)
      | _ => none

/-- Embedding of `StrictRepeater(n, Bytes("pixels", 4))` inside
`Bitmap._length_run_coding` (data code 3): read `n` literal 4-byte words. -/
def takeWords : Nat → List Nat → Option (List (List Nat) × List Nat)
  | 0, t => some ([], t)
  | n + 1, t =>
    if 4 ≤ t.length then
      (takeWords n (t.drop 4)).map (fun p => (t.take 4 :: p.1, p.2))
    else none

/-- Embedding of one `data` run of `Bitmap._length_run_coding`: a
variable-length header `v` with `data_code = v % 4` and
`run_length = (v - data_code) / 4`, followed by the run body selected by
the data code.  Returns the run's list of 4-byte words and the rest of
the input. -/
def parseRun (s : List Nat) : Option (List (List Nat) × List Nat) :=
  match parseInt s with
  | none => none
  | some (v, t) =>
    let data_code := v % 4
    let run_length := (v - data_code) / 4
    if data_code = 0 then
      some (List.replicate run_length [0, 0, 0, 0], t)
    else if data_code = 1 then
      match t with
      | [] => none
      | b :: t2 => some (List.replicate run_length [b, b, b, b], t2)
    else if data_code = 2 then
      if 4 ≤ t.length then
        some (List.replicate run_length (t.take 4), t.drop 4)
      else none
    else
      takeWords run_length t

/-- Fuelled loop for `OptionalGreedyRepeater`: parse runs until one fails.
Each successful run consumes at least the header byte, so fuel equal to
the input length suffices. -/
def greedyRunsAux : Nat → List Nat → List (List (List Nat))
  | 0, _ => []
  | fuel + 1, s =>
    match parseRun s with
    | none => []
    | some (ws, t) => ws :: greedyRunsAux fuel t

/-- Embedding of the `OptionalGreedyRepeater` of `Bitmap._length_run_coding`:
the list of runs (each a list of 4-byte words) parsed greedily until failure. -/
def greedyRuns (s : List Nat) : List (List (List Nat)) :=
  greedyRunsAux s.length s

/-- Embedding of `Bitmap.from_byte_array`: parse the advisory word-count
header, then the greedy run sequence, and concatenate all runs' words in
run order into the flat pixel byte string. -/
def bitmap_from_byte_array (s : List Nat) : Option (List Nat) :=
  (parseInt s).map (fun p => (greedyRuns p.2).flatten.flatten)

/-! ## Containers (`FixedObjectWithRepeater`, `Collection`, `Dictionary`) -/

/-- A parsed `construct` container for the repeater layout
`Struct(UBInt32("length"), MetaRepeater(length, items))`. -/
structure RepContainer (α : Type) where
  length : Nat
  items : List α
deriving Repr, DecidableEq

/-- Embedding of `MetaRepeater(lambda ctx: ctx.length, ...)` at the record
level: read exactly `n` element records from the record stream, failing
when the stream yields fewer than declared. -/
def metaRepeater (n : Nat) (s : List α) : Option (List α) :=
  if n ≤ s.length then some (s.take n) else none

/-- Embedding of `FixedObjectWithRepeater.from_value`: asserts
`len(obj.items) == obj.length` ("File corrupt?") and returns the items. -/
def repeater_from_value (c : RepContainer α) : Option (List α) :=
  if c.items.length = c.length then some c.items else none

/-- Embedding of `FixedObjectWithRepeater.to_value`:
`Container(items = self.value, length = len(self.value))`. -/
def repeater_to_value (v : List α) : RepContainer α :=
  ⟨v.length, v⟩

/-- Wire decode of a `Collection` (tags 20–23): the declared 32-bit length
`L` followed by the record stream; reads exactly `L` records (or fails),
then applies `from_value`. -/
def collectionDecode (L : Nat) (s : List α) : Option (List α) :=
  (metaRepeater L s).bind (fun items => repeater_from_value ⟨L, items⟩)

/-- Python `dict` assignment `d[k] = v`: replace the value when the key is
already present, otherwise append the binding. -/
def pyDictInsert [DecidableEq K] (d : List (K × V)) (k : K) (v : V) :
    List (K × V) :=
  if d.any (fun p => p.1 = k) then
    d.map (fun p => if p.1 = k then (k, v) else p)
  else d ++ [(k, v)]

/-- Python `dict(pairs)` on a list of key/value pairs: successive
assignment, so a repeated key keeps one entry whose value is the last
one seen. -/
def pyDictOfList [DecidableEq K] (pairs : List (K × V)) : List (K × V) :=
  pairs.foldl (fun d p => pyDictInsert d p.1 p.2) []

/-- Embedding of `Dictionary.from_value` (also inherited by
`IdentityDictionary`): `dict([(item.key, item.value) for item in obj.items])`. -/
def dictionary_from_value [DecidableEq K] (pairs : List (K × V)) :
    List (K × V) :=
  pyDictOfList pairs

/-- Wire decode of a `Dictionary` (tags 24–25): the declared 32-bit length
`L` followed by the (key, value) record stream; reads exactly `L` pair
records (or fails), then applies `Dictionary.from_value`. -/
def dictionaryDecode [DecidableEq K] (L : Nat) (s : List (K × V)) :
    Option (List (K × V)) :=
  (metaRepeater L s).map dictionary_from_value

/-- Embedding of `Dictionary.to_value`:
`items = [...for (key, value) in dict(self.value).items()]` with
`length = len(items)`. -/
def dictionary_to_value [DecidableEq K] (v : List (K × V)) :
    RepContainer (K × V) :=
  let d := pyDictOfList v
  ⟨d.length, d⟩

/-! ## `FixedObject.__eq__` and the byte-payload kinds -/

/-- The byte-payload `FixedObject` kinds (`String` tag 9, `Symbol` tag 10,
`ByteArray` tag 11, `UTF8` tag 14), each holding its byte-string `value`. -/
inductive FixedObj
  | strObj (value : List Nat)
  | symObj (value : List Nat)
  | byteArrayObj (value : List Nat)
  | utf8Obj (value : List Nat)
deriving Repr, DecidableEq

/-- The concrete Python class of a value: each kind carries its fixed wire
`classID` (9, 10, 11, 14), which identifies the class. -/
def FixedObj.classId : FixedObj → Nat
  | .strObj _ => 9
  | .symObj _ => 10
  | .byteArrayObj _ => 11
  | .utf8Obj _ => 14

/-- The `value` attribute of a `FixedObject`. -/
def FixedObj.value : FixedObj → List Nat
  | .strObj v => v
  | .symObj v => v
  | .byteArrayObj v => v
  | .utf8Obj v => v

/-- Embedding of `FixedObject.__eq__`:
`self.__class__ == other.__class__ and self.value == other.value`. -/
def fixedEq (a b : FixedObj) : Bool :=
  a.classId == b.classId && a.value == b.value


/-! ## Colors -/

/-- The `Color` (tag 30) and `TranslucentColor` (tag 31) kinds: 10-bit channels. -/
inductive PColor
  | color (r g b : Nat)
  | translucent (r g b alpha : Nat)
deriving Repr, DecidableEq

/-- Embedding of `Color.to_8bit` / its `TranslucentColor` use inside
`to_rgba_array`: each 10-bit component right-shifted by 2. -/
def PColor.to_8bit : PColor → List Nat
  | .color r g b => [r >>> 2, g >>> 2, b >>> 2]
  | .translucent r g b a => [r >>> 2, g >>> 2, b >>> 2, a >>> 2]

/-- Embedding of `to_rgba_array`: a plain `Color` gets alpha 255, a
`TranslucentColor` shifts its own alpha. -/
def PColor.to_rgba_array : PColor → List Nat
  | .color r g b => [r >>> 2, g >>> 2, b >>> 2, 255]
  | .translucent r g b a => [r >>> 2, g >>> 2, b >>> 2, a >>> 2]

/-- Embedding of `TranslucentColor.from_32bit_raw_argb`: parse the 4-byte
`(alpha, r, g, b)` layout, left-shift every component by 2, then apply the
forgotten-alpha correction on the shifted components. -/
def from_32bit_raw_argb (raw : List Nat) : Option PColor :=
  match raw with
  | alpha :: r :: g :: b :: _ =>
    let sr := r <<< 2
    let sg := g <<< 2
    let sb := b <<< 2
    let sa := alpha <<< 2
    let sa2 := if sa = 0 ∧ (0 < sr ∨ 0 < sg ∨ 0 < sb) then 1023 else sa
    some (.translucent sr sg sb sa2)
  | _ => none

/-! ## Default palette (`squeak_color_data` / `squeak_colors`) -/

/-- The bytes of the `squeak_color_data` string literal (768 bytes). -/
def squeak_color_data : List Nat := [
  255, 255, 255, 0, 0, 0, 255, 255, 255, 128, 128, 128, 255, 0, 0, 0, 255, 0, 0, 0, 255, 0, 255, 255,
  255, 255, 0, 255, 0, 255, 32, 32, 32, 64, 64, 64, 96, 96, 96, 159, 159, 159, 191, 191, 191, 223, 223, 223,
  8, 8, 8, 16, 16, 16, 24, 24, 24, 40, 40, 40, 48, 48, 48, 56, 56, 56, 72, 72, 72, 80, 80, 80,
  88, 88, 88, 104, 104, 104, 112, 112, 112, 120, 120, 120, 135, 135, 135, 143, 143, 143, 151, 151, 151, 167, 167, 167,
  175, 175, 175, 183, 183, 183, 199, 199, 199, 207, 207, 207, 215, 215, 215, 231, 231, 231, 239, 239, 239, 247, 247, 247,
  0, 0, 0, 0, 51, 0, 0, 102, 0, 0, 153, 0, 0, 204, 0, 0, 255, 0, 0, 0, 51, 0, 51, 51,
  0, 102, 51, 0, 153, 51, 0, 204, 51, 0, 255, 51, 0, 0, 102, 0, 51, 102, 0, 102, 102, 0, 153, 102,
  0, 204, 102, 0, 255, 102, 0, 0, 153, 0, 51, 153, 0, 102, 153, 0, 153, 153, 0, 204, 153, 0, 255, 153,
  0, 0, 204, 0, 51, 204, 0, 102, 204, 0, 153, 204, 0, 204, 204, 0, 255, 204, 0, 0, 255, 0, 51, 255,
  0, 102, 255, 0, 153, 255, 0, 204, 255, 0, 255, 255, 51, 0, 0, 51, 51, 0, 51, 102, 0, 51, 153, 0,
  51, 204, 0, 51, 255, 0, 51, 0, 51, 51, 51, 51, 51, 102, 51, 51, 153, 51, 51, 204, 51, 51, 255, 51,
  51, 0, 102, 51, 51, 102, 51, 102, 102, 51, 153, 102, 51, 204, 102, 51, 255, 102, 51, 0, 153, 51, 51, 153,
  51, 102, 153, 51, 153, 153, 51, 204, 153, 51, 255, 153, 51, 0, 204, 51, 51, 204, 51, 102, 204, 51, 153, 204,
  51, 204, 204, 51, 255, 204, 51, 0, 255, 51, 51, 255, 51, 102, 255, 51, 153, 255, 51, 204, 255, 51, 255, 255,
  102, 0, 0, 102, 51, 0, 102, 102, 0, 102, 153, 0, 102, 204, 0, 102, 255, 0, 102, 0, 51, 102, 51, 51,
  102, 102, 51, 102, 153, 51, 102, 204, 51, 102, 255, 51, 102, 0, 102, 102, 51, 102, 102, 102, 102, 102, 153, 102,
  102, 204, 102, 102, 255, 102, 102, 0, 153, 102, 51, 153, 102, 102, 153, 102, 153, 153, 102, 204, 153, 102, 255, 153,
  102, 0, 204, 102, 51, 204, 102, 102, 204, 102, 153, 204, 102, 204, 204, 102, 255, 204, 102, 0, 255, 102, 51, 255,
  102, 102, 255, 102, 153, 255, 102, 204, 255, 102, 255, 255, 153, 0, 0, 153, 51, 0, 153, 102, 0, 153, 153, 0,
  153, 204, 0, 153, 255, 0, 153, 0, 51, 153, 51, 51, 153, 102, 51, 153, 153, 51, 153, 204, 51, 153, 255, 51,
  153, 0, 102, 153, 51, 102, 153, 102, 102, 153, 153, 102, 153, 204, 102, 153, 255, 102, 153, 0, 153, 153, 51, 153,
  153, 102, 153, 153, 153, 153, 153, 204, 153, 153, 255, 153, 153, 0, 204, 153, 51, 204, 153, 102, 204, 153, 153, 204,
  153, 204, 204, 153, 255, 204, 153, 0, 255, 153, 51, 255, 153, 102, 255, 153, 153, 255, 153, 204, 255, 153, 255, 255,
  204, 0, 0, 204, 51, 0, 204, 102, 0, 204, 153, 0, 204, 204, 0, 204, 255, 0, 204, 0, 51, 204, 51, 51,
  204, 102, 51, 204, 153, 51, 204, 204, 51, 204, 255, 51, 204, 0, 102, 204, 51, 102, 204, 102, 102, 204, 153, 102,
  204, 204, 102, 204, 255, 102, 204, 0, 153, 204, 51, 153, 204, 102, 153, 204, 153, 153, 204, 204, 153, 204, 255, 153,
  204, 0, 204, 204, 51, 204, 204, 102, 204, 204, 153, 204, 204, 204, 204, 204, 255, 204, 204, 0, 255, 204, 51, 255,
  204, 102, 255, 204, 153, 255, 204, 204, 255, 204, 255, 255, 255, 0, 0, 255, 51, 0, 255, 102, 0, 255, 153, 0,
  255, 204, 0, 255, 255, 0, 255, 0, 51, 255, 51, 51, 255, 102, 51, 255, 153, 51, 255, 204, 51, 255, 255, 51,
  255, 0, 102, 255, 51, 102, 255, 102, 102, 255, 153, 102, 255, 204, 102, 255, 255, 102, 255, 0, 153, 255, 51, 153,
  255, 102, 153, 255, 153, 153, 255, 204, 153, 255, 255, 153, 255, 0, 204, 255, 51, 204, 255, 102, 204, 255, 153, 204,
  255, 204, 204, 255, 255, 204, 255, 0, 255, 255, 51, 255, 255, 102, 255, 255, 153, 255, 255, 204, 255, 255, 255, 255]

/-- Embedding of the module-level loop building `squeak_colors`:
`for i in range(0, len(squeak_color_data), 4):`
`    color = squeak_color_data[i:i+4]`
`    squeak_colors.append(array("B", (ord(x) for x in color[i:i+4])))`
(note the second slice is applied to the already-sliced 4-byte `color`). -/
def squeak_colors : List (List Nat) :=
  (List.range ((squeak_color_data.length + 3) / 4)).map (fun j =>
    let i := 4 * j
    let color := (squeak_color_data.drop i).take 4
    (color.drop i).take 4)

/-! ## Form / pixel engine -/

/-- Errors raised by the pixel engine: `NotImplementedError` for depth 16,
`IndexError` for a palette index out of range, `StopIteration` escaping
the row-padding skip loop of `to_array`, `ValueError` for a short 4-byte
group or a byte outside `chr`'s range. -/
inductive PixError
  | notImplemented
  | indexErr
  | stopIteration
  | valueErr
deriving Repr, DecidableEq

/-- Embedding of the `Form` object: `width`, `height`, `depth`,
`privateOffset`, `bits` (the flat Bitmap byte string) and the optional
palette `colors`. -/
structure Form where
  width : Nat
  height : Nat
  depth : Nat
  privateOffset : Option Nat := none
  bits : List Nat
  colors : Option (List PColor) := none
deriving Repr, DecidableEq

/-- The eight bits of one byte, most significant first. -/
def byteBits (b : Nat) : List Nat :=
  [b / 128 % 2, b / 64 % 2, b / 32 % 2, b / 16 % 2,
   b / 8 % 2, b / 4 % 2, b / 2 % 2, b % 2]

/-- Big-endian value of a bit group. -/
def bitsVal (bits : List Nat) : Nat :=
  bits.foldl (fun acc b => acc * 2 + b) 0

/-- Embedding of the `BitStruct`/`MetaRepeater` parse in `Form._to_pixels`
for depth ≤ 8: `length = len(pixel_bytes) * 8 / depth` indices, each made
of `depth` consecutive bits, most significant bit first. -/
def bitsToIndices (depth : Nat) (pixel_bytes : List Nat) : List Nat :=
  let length := pixel_bytes.length * 8 / depth
  let bits := (pixel_bytes.map byteBits).flatten
  (List.range length).map (fun j => bitsVal ((bits.drop (depth * j)).take depth))

/-- Split a byte string into `(a, r, g, b)` groups as
`range(0, len, 4)` slicing does; a trailing short group makes the tuple
unpacking raise `ValueError`. -/
def chunks4 : List Nat → Except PixError (List (Nat × Nat × Nat × Nat))
  | [] => .ok []
  | a :: r :: g :: b :: rest => (chunks4 rest).map (fun l => (a, r, g, b) :: l)
  | _ => .error .valueErr

/-- The palette used by `Form._to_pixels` for depth ≤ 8: `squeak_colors`
when `colors` is absent, else each color's `to_rgba_array()`. -/
def Form.palette (f : Form) : List (List Nat) :=
  match f.colors with
  | none => squeak_colors
  | some cs => cs.map PColor.to_rgba_array

/-- Embedding of `Form._to_pixels`: the sequence of RGBA byte arrays the
generator yields (evaluated eagerly; the lazy generator yields the same
values and errors in the same cases). -/
def Form.toPixels (f : Form) : Except PixError (List (List Nat)) :=
  if f.depth = 32 then
    (chunks4 f.bits).map (List.map (fun q =>
      let (a, r, g, b) := q
      let a2 := if a = 0 ∧ (0 < r ∨ 0 < g ∨ 0 < b) then 255 else a
      [r, g, b, a2]))
  else if f.depth = 16 then
    .error .notImplemented
  else if f.depth ≤ 8 then
    (bitsToIndices f.depth f.bits).mapM (fun pixel =>
      match f.palette[pixel]? with
      | some c => .ok c
      | none => .error .indexErr)
  else
    .ok []

/-- The row-padding skip of `Form.to_array`: for depth ≤ 8,
`pixels_per_word = 32 / depth` and
`skip = (pixels_per_word - width % pixels_per_word) % pixels_per_word`;
0 otherwise. -/
def Form.skipOf (f : Form) : Nat :=
  if f.depth ≤ 8 then
    let pixels_per_word := 32 / f.depth
    let pixels_in_last_word := f.width % pixels_per_word
    (pixels_per_word - pixels_in_last_word) % pixels_per_word
  else 0

/-- Fuelled form of the `Form.to_array` main loop: emit pixels one at a
time; once `x` reaches `width`, advance the generator `skip` more times
(uncaught `StopIteration` — modelled as `none` — when it runs dry there)
and reset `x`.  Exhaustion at the loop head ends the loop normally.  Every
step consumes at least one pixel, so fuel equal to the pixel count
suffices and the fuel-out case is unreachable from `toArrayGo`. -/
def toArrayGoF (width skip : Nat) : Nat → List (List Nat) → Nat → Option (List (List Nat))
  | _, [], _ => some []
  | 0, _ :: _, _ => none
  | fuel + 1, p :: rest, x =>
    if width ≤ x + 1 then
      if skip ≤ rest.length then
        (toArrayGoF width skip fuel (rest.drop skip) 0).map (fun l => p :: l)
      else none
    else
      (toArrayGoF width skip fuel rest (x + 1)).map (fun l => p :: l)

/-- The main loop of `Form.to_array`, starting with enough fuel. -/
def toArrayGo (width skip : Nat) (pixels : List (List Nat)) (x : Nat) :
    Option (List (List Nat)) :=
  toArrayGoF width skip pixels.length pixels x

/-- Embedding of `Form.to_array`: returns `(width, height, rgba)` with
`rgba` the concatenation of the emitted pixels' RGBA bytes. -/
def Form.to_array (f : Form) : Except PixError (Nat × Nat × List Nat) :=
  match f.toPixels with
  | .error e => .error e
  | .ok pixels =>
    match toArrayGo f.width f.skipOf pixels 0 with
    | none => .error .stopIteration
    | some emitted => .ok (f.width, f.height, emitted.flatten)

/-- The `raw` accumulation loop of `Form.from_array`: each `(r, g, b, a)`
group of the RGBA array is written as the bytes `a r g b`; `chr` fails on
a value ≥ 256, and a short trailing group fails to unpack. -/
def buildRaw : List Nat → Option (List Nat)
  | [] => some []
  | r :: g :: b :: a :: rest =>
    if r < 256 ∧ g < 256 ∧ b < 256 ∧ a < 256 then
      (buildRaw rest).map (fun l => a :: r :: g :: b :: l)
    else none
  | _ => none

/-- Embedding of `Form.from_array`: a depth-32 `Form` over the
`(alpha, red, green, blue)` raw words built from the RGBA array. -/
def Form.from_array (width height : Nat) (rgba : List Nat) : Option Form :=
  (buildRaw rgba).map (fun raw =>
    { width := width, height := height, depth := 32, bits := raw })

/-- The forgotten-alpha correction lifted to a flat RGBA byte array: each
`(r, g, b, a)` pixel whose alpha is 0 with some nonzero channel gets
alpha 255; everything else is unchanged.  (This is the statement-side
description of the depth-32 round trip, not code.) -/
def fixRGBA : List Nat → List Nat
  | r :: g :: b :: a :: rest =>
    r :: g :: b :: (if a = 0 ∧ (0 < r ∨ 0 < g ∨ 0 < b) then 255 else a) :: fixRGBA rest
  | l => l

/-! ## Theorems -/

/-- C4: the variable-length integer decoder used for the Bitmap RLE length
and every run header returns the first byte `b` itself when `b ≤ 223`;
`(b - 224) * 256 + c` with `c` the next byte when `224 ≤ b ≤ 254`; and the
big-endian unsigned 32-bit value of the next 4 bytes when `b = 255`. -/
theorem C4_varint_decoder :
    (∀ (b : Nat) (r : List Nat), b < 256 → b ≤ 223 →
        parseInt (b :: r) = some (b, r)) ∧
    (∀ (b c : Nat) (r : List Nat), b < 256 → c < 256 → 224 ≤ b → b ≤ 254 →
        parseInt (b :: c :: r) = some ((b - 224) * 256 + c, r)) ∧
    (∀ (b0 b1 b2 b3 : Nat) (r : List Nat),
        b0 < 256 → b1 < 256 → b2 < 256 → b3 < 256 →
        parseInt (255 :: b0 :: b1 :: b2 :: b3 :: r) =
          some (((b0 * 256 + b1) * 256 + b2) * 256 + b3, r)) := by
  refine ⟨?_, ?_, ?_⟩
  · intro b r _ hb
    simp [parseInt, hb]
  · intro b c r _ _ hb1 hb2
    have h1 : ¬ b ≤ 223 := by omega
    simp [parseInt, h1, hb2]
  · intro b0 b1 b2 b3 r _ _ _ _
    simp [parseInt]

/-- Witness for C4 at concrete inputs of each of the three ranges. -/
theorem C4_varint_decoder_witness :
    parseInt [5, 7] = some (5, [7]) ∧
    parseInt [230, 7] = some (1543, []) ∧
    parseInt [255, 1, 0, 0, 2] = some (16777218, []) :=
  ⟨C4_varint_decoder.1 5 [7] (by decide) (by decide),
   C4_varint_decoder.2.1 230 7 [] (by decide) (by decide) (by decide) (by decide),
   C4_varint_decoder.2.2 1 0 0 2 [] (by decide) (by decide) (by decide) (by decide)⟩

/-- C7: `TranslucentColor.from_32bit_raw_argb` promotes each 8-bit
component to 10 bits by a 2-bit left shift and forces alpha to 1023 when
the resulting alpha is 0 while some of r, g, b is nonzero; in particular
raw `(alpha=0, r=10, g=0, b=0)` yields alpha 1023, and otherwise the
shifted alpha is kept. -/
theorem C7_forgotten_alpha :
    (∀ a r g b : Nat, a < 256 → r < 256 → g < 256 → b < 256 →
        from_32bit_raw_argb [a, r, g, b] =
          some (.translucent (r <<< 2) (g <<< 2) (b <<< 2)
            (if a = 0 ∧ (0 < r ∨ 0 < g ∨ 0 < b) then 1023 else a <<< 2))) ∧
    from_32bit_raw_argb [0, 10, 0, 0] = some (.translucent 40 0 0 1023) := by
  constructor
  · intro a r g b _ _ _ _
    have hc : (a <<< 2 = 0 ∧ (0 < r <<< 2 ∨ 0 < g <<< 2 ∨ 0 < b <<< 2)) ↔
        (a = 0 ∧ (0 < r ∨ 0 < g ∨ 0 < b)) := by
      simp only [Nat.shiftLeft_eq]
      omega
    simp only [from_32bit_raw_argb]
    rw [if_congr hc rfl rfl]
  · decide

/-- Witness for C7: a nonzero alpha is kept (shifted), and the forced case. -/
theorem C7_forgotten_alpha_witness :
    from_32bit_raw_argb [3, 10, 0, 0] = some (.translucent 40 0 0 12) ∧
    from_32bit_raw_argb [0, 10, 0, 0] = some (.translucent 40 0 0 1023) :=
  ⟨by rw [C7_forgotten_alpha.1 3 10 0 0 (by decide) (by decide) (by decide) (by decide)]
      decide,
   C7_forgotten_alpha.2⟩

/-- C8: pixel decoding of a `Form` whose depth is 16 fails with an
explicit error (`NotImplementedError`); it never returns a pixel array. -/
theorem C8_depth16_fails :
    ∀ f : Form, f.depth = 16 → f.to_array = .error .notImplemented := by
  intro f h
  simp [Form.to_array, Form.toPixels, h]

/-- Witness for C8 at a concrete depth-16 form. -/
theorem C8_depth16_fails_witness :
    Form.to_array { width := 2, height := 2, depth := 16, bits := [0, 0, 0, 0] } =
      .error .notImplemented :=
  C8_depth16_fails _ rfl

/-- C10: `FixedObject.__eq__` is class-sensitive: two values compare equal
iff they are of the same concrete kind with equal payloads (equivalently,
iff they are the same value); a String, a Symbol and a ByteArray with the
same byte payload are pairwise unequal. -/
theorem C10_class_sensitive_eq :
    (∀ a b : FixedObj,
        (fixedEq a b = true ↔ a.classId = b.classId ∧ a.value = b.value) ∧
        (fixedEq a b = true ↔ a = b)) ∧
    (∀ s : List Nat,
        fixedEq (.strObj s) (.symObj s) = false ∧
        fixedEq (.strObj s) (.byteArrayObj s) = false ∧
        fixedEq (.symObj s) (.byteArrayObj s) = false ∧
        fixedEq (.strObj s) (.strObj s) = true) := by
  constructor
  · intro a b
    cases a <;> cases b <;>
      simp [fixedEq, FixedObj.classId, FixedObj.value]
  · intro s
    refine ⟨?_, ?_, ?_, ?_⟩ <;> simp [fixedEq, FixedObj.classId, FixedObj.value]

/-! ### Dictionary lemmas (Python `dict` semantics) -/

lemma pyDictInsert_keys [DecidableEq K] (d : List (K × V)) (k : K) (v : V) :
    (pyDictInsert d k v).map Prod.fst =
      if d.any (fun p => p.1 = k) then d.map Prod.fst
      else d.map Prod.fst ++ [k] := by
  unfold pyDictInsert
  split
  · simp only [List.map_map]
    apply List.map_congr_left
    intro p _
    by_cases h : p.1 = k <;> simp [h]
  · simp

lemma pyDictInsert_length [DecidableEq K] (d : List (K × V)) (k : K) (v : V) :
    (pyDictInsert d k v).length ≤ d.length + 1 := by
  unfold pyDictInsert
  split <;> simp

lemma pyDictFoldl_length [DecidableEq K] :
    ∀ (ps : List (K × V)) (d : List (K × V)),
      (ps.foldl (fun d p => pyDictInsert d p.1 p.2) d).length ≤
        d.length + ps.length := by
  intro ps
  induction ps with
  | nil => simp
  | cons p rest ih =>
    intro d
    calc (List.foldl _ (pyDictInsert d p.1 p.2) rest).length
        ≤ (pyDictInsert d p.1 p.2).length + rest.length := ih _
      _ ≤ d.length + 1 + rest.length :=
          Nat.add_le_add_right (pyDictInsert_length d p.1 p.2) _
      _ = d.length + (p :: rest).length := by simp; omega

lemma pyDictOfList_length_le [DecidableEq K] (ps : List (K × V)) :
    (pyDictOfList ps).length ≤ ps.length := by
  simpa using pyDictFoldl_length ps []

lemma pyDictFoldl_keys_nodup [DecidableEq K] :
    ∀ (ps : List (K × V)) (d : List (K × V)),
      (d.map Prod.fst).Nodup →
      ((ps.foldl (fun d p => pyDictInsert d p.1 p.2) d).map Prod.fst).Nodup := by
  intro ps
  induction ps with
  | nil => intro d hd; simpa using hd
  | cons p rest ih =>
    intro d hd
    apply ih
    rw [pyDictInsert_keys]
    split
    · exact hd
    · rename_i hany
      simp only [List.any_eq_true, decide_eq_true_eq, not_exists, not_and] at hany
      simp only [List.nodup_append, List.nodup_cons, List.nodup_nil]
      refine ⟨hd, by simp, ?_⟩
      intro a ha hb
      simp only [List.mem_singleton] at hb
      subst hb
      obtain ⟨q, hq, hq1⟩ := List.mem_map.mp ha
      exact hany q hq hq1

lemma pyDictOfList_keys_nodup [DecidableEq K] (ps : List (K × V)) :
    ((pyDictOfList ps).map Prod.fst).Nodup := by
  simpa using pyDictFoldl_keys_nodup ps [] (by simp)

/-- C1 counterexample: a dictionary wire record with two pairs sharing the
integer key 1 decodes (`Dictionary.from_value`) to a value holding ONE
pair, not two — duplicate keys are collapsed by the Python `dict`. -/
theorem C1_counterexample :
    dictionary_from_value [((1 : Nat), (10 : Nat)), (1, 20)] = [(1, 20)] ∧
    (dictionary_from_value [((1 : Nat), (10 : Nat)), (1, 20)]).length ≠ 2 := by
  decide

/-- C1 (amended): for keys that compare (and hash) equal, such as
integers, `Dictionary.from_value` collapses duplicate keys into a single
pair whose value is the last one seen; the decoded dictionary's keys are
duplicate-free, and `Dictionary.to_value` likewise writes the collapsed
pairs. -/
theorem C1_dictionary_dedup :
    (∀ (K V : Type) (inst : DecidableEq K) (k : K) (v1 v2 : V),
        dictionary_from_value [(k, v1), (k, v2)] = [(k, v2)]) ∧
    (∀ (K V : Type) (inst : DecidableEq K) (pairs : List (K × V)),
        ((dictionary_from_value pairs).map Prod.fst).Nodup) ∧
    (∀ (K V : Type) (inst : DecidableEq K) (k : K) (v1 v2 : V),
        dictionary_to_value [(k, v1), (k, v2)] = ⟨1, [(k, v2)]⟩) := by
  refine ⟨?_, ?_, ?_⟩
  · intro K V _inst k v1 v2
    simp [dictionary_from_value, pyDictOfList, pyDictInsert]
  · intro K V _inst pairs
    exact pyDictOfList_keys_nodup pairs
  · intro K V _inst k v1 v2
    simp [dictionary_to_value, pyDictOfList, pyDictInsert]

/-- C2 counterexample: a dictionary with declared length 2 whose two pair
records share the integer key 2 decodes successfully but yields one pair,
not the declared two, and re-encoding writes length 1, not 2. -/
theorem C2_counterexample :
    dictionaryDecode 2 [((2 : Nat), (10 : Nat)), (2, 20)] = some [(2, 20)] ∧
    (dictionary_to_value [((2 : Nat), (20 : Nat))]).length = 1 := by
  decide

/-- C2 (amended): for sequences the contract holds as stated: decoding a
declared length `L` yields exactly `L` elements when the stream has them,
fails with no partial result when it has fewer, and re-encoding writes
`L`.  For dictionaries the wire layer likewise reads exactly `L` pair
records or fails, but the decoded dictionary value may hold fewer than
`L` pairs when keys collide (and re-encoding then writes the collapsed
count). -/
theorem C2_container_count :
    (∀ (α : Type) (L : Nat) (s : List α), L ≤ s.length →
        collectionDecode L s = some (s.take L) ∧ (s.take L).length = L ∧
        repeater_to_value (s.take L) = ⟨L, s.take L⟩) ∧
    (∀ (α : Type) (L : Nat) (s : List α), s.length < L →
        collectionDecode L s = none) ∧
    (∀ (K V : Type) (inst : DecidableEq K) (L : Nat) (ps : List (K × V)),
        ps.length < L → dictionaryDecode L ps = none) ∧
    (∀ (K V : Type) (inst : DecidableEq K) (L : Nat) (ps : List (K × V)),
        L ≤ ps.length →
        ∃ d, dictionaryDecode L ps = some d ∧ d.length ≤ L) := by
  refine ⟨?_, ?_, ?_, ?_⟩
  · intro α L s hL
    have hlen : (s.take L).length = L := by
      simp [List.length_take, Nat.min_eq_left hL]
    refine ⟨?_, hlen, ?_⟩
    · simp [collectionDecode, metaRepeater, repeater_from_value, hL, hlen]
    · simp [repeater_to_value, hlen]
  · intro α L s hL
    have h : ¬ L ≤ s.length := by omega
    simp [collectionDecode, metaRepeater, h]
  · intro K V _inst L ps hL
    have h : ¬ L ≤ ps.length := by omega
    simp [dictionaryDecode, metaRepeater, h]
  · intro K V _inst L ps hL
    refine ⟨dictionary_from_value (ps.take L), ?_, ?_⟩
    · simp [dictionaryDecode, metaRepeater, hL]
    · calc (dictionary_from_value (ps.take L)).length
          ≤ (ps.take L).length := pyDictOfList_length_le _
        _ = L := by simp [List.length_take, Nat.min_eq_left hL]

/-- Witness for C2 at concrete inputs, discharging each hypothesis. -/
theorem C2_container_count_witness :
    (collectionDecode 1 [(7 : Nat), 8] = some [7] ∧
      ([(7 : Nat), 8].take 1).length = 1 ∧
      repeater_to_value ([(7 : Nat), 8].take 1) = ⟨1, [7]⟩) ∧
    collectionDecode 2 [(7 : Nat)] = none ∧
    dictionaryDecode 2 [((3 : Nat), (4 : Nat))] = none ∧
    ∃ d, dictionaryDecode 1 [((3 : Nat), (4 : Nat))] = some d ∧ d.length ≤ 1 :=
  ⟨C2_container_count.1 Nat 1 [7, 8] (by decide),
   C2_container_count.2.1 Nat 2 [7] (by decide),
   C2_container_count.2.2.1 Nat Nat inferInstance 2 [(3, 4)] (by decide),
   C2_container_count.2.2.2 Nat Nat inferInstance 1 [(3, 4)] (by decide)⟩

/-! ### Bitmap RLE lemmas -/

lemma takeWords_flatten (ws : List (List Nat)) (t2 : List Nat)
    (h : ∀ w ∈ ws, w.length = 4) :
    takeWords ws.length (ws.flatten ++ t2) = some (ws, t2) := by
  induction ws with
  | nil => simp [takeWords]
  | cons w rest ih =>
    have hw : w.length = 4 := h w (by simp)
    have hrest : ∀ u ∈ rest, u.length = 4 := fun u hu => h u (by simp [hu])
    have hlen : 4 ≤ (w ++ (rest.flatten ++ t2)).length := by
      simp [hw]
    simp only [List.length_cons, List.flatten_cons, List.append_assoc, takeWords,
      hlen, if_true]
    rw [← hw, List.take_left, List.drop_left, ih hrest]
    rfl

/-- C3: each run of the Bitmap RLE input with header value `V`,
`data_code = V mod 4`, `run_length = (V - data_code) / 4`, decodes as: for
code 0, `run_length` zero words; for code 1, `run_length` copies of the
one following byte repeated 4 times; for code 2, `run_length` copies of
the one following 4-byte word; for code 3, the `run_length` following
literal words verbatim; `from_byte_array` concatenates all runs' words in
run order.  In particular `data_code=2, run_length=3` followed by word `W`
decodes to `W W W`, and header byte 11 followed by 8 literal bytes decodes
to those bytes verbatim. -/
theorem C3_bitmap_rle_runs :
    (∀ (s t : List Nat) (v : Nat), parseInt s = some (v, t) →
        (v % 4 = 0 →
          parseRun s = some (List.replicate ((v - v % 4) / 4) [0, 0, 0, 0], t)) ∧
        (∀ b t2, v % 4 = 1 → t = b :: t2 →
          parseRun s = some (List.replicate ((v - v % 4) / 4) [b, b, b, b], t2)) ∧
        (∀ w0 w1 w2 w3 t2, v % 4 = 2 → t = w0 :: w1 :: w2 :: w3 :: t2 →
          parseRun s =
            some (List.replicate ((v - v % 4) / 4) [w0, w1, w2, w3], t2)) ∧
        (∀ (ws : List (List Nat)) (t2 : List Nat), v % 4 = 3 →
          (∀ w ∈ ws, w.length = 4) → ws.length = (v - v % 4) / 4 →
          t = ws.flatten ++ t2 →
          parseRun s = some (ws, t2))) ∧
    (∀ w0 w1 w2 w3 : Nat,
        bitmap_from_byte_array [2, 14, w0, w1, w2, w3] =
          some [w0, w1, w2, w3, w0, w1, w2, w3, w0, w1, w2, w3]) ∧
    (∀ b0 b1 b2 b3 b4 b5 b6 b7 : Nat,
        bitmap_from_byte_array [2, 11, b0, b1, b2, b3, b4, b5, b6, b7] =
          some [b0, b1, b2, b3, b4, b5, b6, b7]) ∧
    (∀ x0 x1 x2 x3 y : Nat,
        bitmap_from_byte_array [0, 6, x0, x1, x2, x3, 5, y] =
          some [x0, x1, x2, x3, y, y, y, y]) := by
  refine ⟨?_, ?_, ?_, ?_⟩
  · intro s t v hs
    refine ⟨?_, ?_, ?_, ?_⟩
    · intro h0
      simp [parseRun, hs, h0]
    · intro b t2 h1 ht
      subst ht
      simp [parseRun, hs, h1]
    · intro w0 w1 w2 w3 t2 h2 ht
      subst ht
      simp [parseRun, hs, h2, List.take, List.drop]
    · intro ws t2 h3 hw hlen ht
      subst ht
      simp only [parseRun, hs, h3]
      norm_num
      have hlen' : (v - 3) / 4 = ws.length := by rw [hlen, h3]
      rw [hlen']
      exact takeWords_flatten ws t2 hw
  · intro w0 w1 w2 w3
    simp [bitmap_from_byte_array, parseInt, greedyRuns, greedyRunsAux, parseRun,
      List.take, List.drop]
  · intro b0 b1 b2 b3 b4 b5 b6 b7
    simp [bitmap_from_byte_array, parseInt, greedyRuns, greedyRunsAux, parseRun,
      takeWords, List.take, List.drop]
  · intro x0 x1 x2 x3 y
    simp [bitmap_from_byte_array, parseInt, greedyRuns, greedyRunsAux, parseRun,
      List.take, List.drop]

/-- Witness for C3, discharging the general clause's hypotheses at a
concrete two-run input and evaluating the example clauses. -/
theorem C3_bitmap_rle_runs_witness :
    parseRun [11, 1, 2, 3, 4, 5, 6, 7, 8] =
      some ([[1, 2, 3, 4], [5, 6, 7, 8]], []) ∧
    bitmap_from_byte_array [2, 14, 9, 8, 7, 6] =
      some [9, 8, 7, 6, 9, 8, 7, 6, 9, 8, 7, 6] ∧
    bitmap_from_byte_array [2, 11, 1, 2, 3, 4, 5, 6, 7, 8] =
      some [1, 2, 3, 4, 5, 6, 7, 8] ∧
    bitmap_from_byte_array [0, 6, 1, 2, 3, 4, 5, 9] =
      some [1, 2, 3, 4, 9, 9, 9, 9] :=
  ⟨(C3_bitmap_rle_runs.1 [11, 1, 2, 3, 4, 5, 6, 7, 8] [1, 2, 3, 4, 5, 6, 7, 8] 11
        (by decide)).2.2.2 [[1, 2, 3, 4], [5, 6, 7, 8]] [] (by decide)
        (by decide) (by decide) (by decide),
   C3_bitmap_rle_runs.2.1 9 8 7 6,
   C3_bitmap_rle_runs.2.2.1 1 2 3 4 5 6 7 8,
   C3_bitmap_rle_runs.2.2.2 1 2 3 4 9⟩

set_option maxRecDepth 16000

/-- C6: evaluation of the default palette the code actually builds.  The
`squeak_color_data` blob is 768 bytes; the construction loop strides 4
and re-slices the already-sliced 4-byte `color` by the running index, so
the table has 192 entries, entry 0 is `(255, 255, 255, 0)` (alpha byte 0,
not 255), and every later entry is an empty byte array — not the
256-entry all-opaque RGBA table the claim describes. -/
theorem C6_default_palette_eval :
    squeak_color_data.length = 768 ∧
    squeak_colors.length = 192 ∧
    squeak_colors[0]? = some [255, 255, 255, 0] ∧
    squeak_colors[1]? = some [] ∧
    squeak_colors.drop 1 = List.replicate 191 [] := by
  decide

/-! ### `to_array` loop lemmas -/

lemma toArrayGoF_nil (width skip f x : Nat) :
    toArrayGoF width skip f [] x = some [] := by
  cases f <;> rfl

lemma toArrayGoF_congr (width skip : Nat) :
    ∀ (f g : Nat) (ps : List (List Nat)) (x : Nat),
      ps.length ≤ f → ps.length ≤ g →
      toArrayGoF width skip f ps x = toArrayGoF width skip g ps x := by
  intro f
  induction f with
  | zero =>
    intro g ps x hf _
    have : ps = [] := List.length_eq_zero.mp (Nat.le_zero.mp hf)
    subst this
    rw [toArrayGoF_nil, toArrayGoF_nil]
  | succ f ih =>
    intro g ps x hf hg
    cases ps with
    | nil => rw [toArrayGoF_nil, toArrayGoF_nil]
    | cons p rest =>
      cases g with
      | zero => simp at hg
      | succ g =>
        simp only [toArrayGoF]
        simp only [List.length_cons, Nat.succ_le_succ_iff] at hf hg
        split
        · split
          · rw [ih g (rest.drop skip) 0
              (by simp only [List.length_drop]; omega)
              (by simp only [List.length_drop]; omega)]
          · rfl
        · rw [ih g rest (x + 1) hf hg]

lemma toArrayGoF_skip_zero (width : Nat) :
    ∀ (f : Nat) (ps : List (List Nat)) (x : Nat), ps.length ≤ f →
      toArrayGoF width 0 f ps x = some ps := by
  intro f
  induction f with
  | zero =>
    intro ps x hf
    have : ps = [] := List.length_eq_zero.mp (Nat.le_zero.mp hf)
    subst this
    rw [toArrayGoF_nil]
  | succ f ih =>
    intro ps x hf
    cases ps with
    | nil => rw [toArrayGoF_nil]
    | cons p rest =>
      simp only [List.length_cons, Nat.succ_le_succ_iff] at hf
      simp only [toArrayGoF, Nat.zero_le, if_true, List.drop_zero]
      split <;> simp [ih rest _ hf]

lemma toArrayGoF_row (width skip : Nat) :
    ∀ (row rest : List (List Nat)) (f x : Nat),
      x < width → row.length + x = width + skip →
      (row ++ rest).length ≤ f →
      toArrayGoF width skip f (row ++ rest) x =
        (toArrayGoF width skip rest.length rest 0).map
          (fun l => row.take (width - x) ++ l) := by
  intro row
  induction row with
  | nil =>
    intro rest f x hx hrow _
    simp only [List.length_nil, Nat.zero_add] at hrow
    omega
  | cons p row ih =>
    intro rest f x hx hrow hf
    cases f with
    | zero => simp at hf
    | succ f =>
      simp only [List.cons_append, List.length_cons, List.length_append,
        Nat.succ_le_succ_iff] at hf ⊢
      simp only [toArrayGoF]
      by_cases hb : width ≤ x + 1
      · have hxw : x + 1 = width := by omega
        have hrl : row.length = skip := by
          simp only [List.length_cons] at hrow
          omega
        have hskip : skip ≤ (row ++ rest).length := by
          simp [List.length_append, hrl]
        simp only [hb, if_true, hskip, if_true]
        have hdrop : (row ++ rest).drop skip = rest := by
          rw [← hrl, List.drop_left]
        rw [hdrop]
        rw [toArrayGoF_congr width skip f rest.length rest 0 (by omega) le_rfl]
        have htake : (p :: row).take (width - x) = [p] := by
          have : width - x = 1 := by omega
          simp [this]
        rw [htake]
        rfl
      · have hx1 : x + 1 < width := by omega
        have hrow1 : row.length + (x + 1) = width + skip := by
          simp only [List.length_cons] at hrow
          omega
        simp only [hb, if_false]
        rw [ih rest f (x + 1) hx1 hrow1 (by simp only [List.length_append]; omega)]
        have htake : (p :: row).take (width - x) = p :: row.take (width - (x + 1)) := by
          have h1 : width - x = (width - (x + 1)) + 1 := by omega
          rw [h1]
          rfl
        rw [htake, Option.map_map]
        rfl

lemma toArrayGo_rows (width skip : Nat) (hw : 1 ≤ width) :
    ∀ rows : List (List (List Nat)),
      (∀ row ∈ rows, row.length = width + skip) →
      toArrayGo width skip rows.flatten 0 =
        some ((rows.map (fun row => row.take width)).flatten) := by
  intro rows
  induction rows with
  | nil => simp [toArrayGo, toArrayGoF_nil]
  | cons row rows ih =>
    intro h
    have hrow : row.length = width + skip := h row (by simp)
    have hrest : ∀ r ∈ rows, r.length = width + skip :=
      fun r hr => h r (by simp [hr])
    simp only [List.flatten_cons, toArrayGo]
    rw [toArrayGoF_row width skip row rows.flatten _ 0 (by omega) (by omega) le_rfl]
    have := ih hrest
    simp only [toArrayGo] at this
    rw [this]
    simp [Nat.sub_zero]

/-- C5 counterexample: a depth-1 Form of width 3, height 1 whose `bits`
is the single byte `0b10000000` does NOT produce 3 pixels: the per-word
row padding skip is 29, which exhausts the 8 available indices, and
`to_array` fails with an uncaught `StopIteration`. -/
theorem C5_counterexample :
    Form.to_array { width := 3, height := 1, depth := 1, bits := [128] } =
      .error .stopIteration := by
  rfl

/-- C5 (amended): for depth ≤ 8 the row padding skip is
`(pixels_per_word - width mod pixels_per_word) mod pixels_per_word` with
`pixels_per_word = 32 / depth`, and whenever every scanline supplies
`width + skip` decoded colors, the trailing `skip` of each are discarded
once `width` pixels of the row have been produced.  The claim's concrete
example needs a whole 32-bit word of bits: with `bits` =
`0b10000000 00 00 00` the decode yields exactly 3 pixels — pixel 0 the
palette entry at index 1, pixels 1–2 the entry at index 0 (skip 29
indices discarded); with a single byte of bits it instead fails. -/
theorem C5_row_padding_skip :
    (∀ (f : Form) (rows : List (List (List Nat))),
        1 ≤ f.width →
        f.toPixels = .ok rows.flatten →
        (∀ row ∈ rows, row.length = f.width + f.skipOf) →
        f.to_array =
          .ok (f.width, f.height,
            ((rows.map (fun row => row.take f.width)).flatten).flatten)) ∧
    Form.to_array { width := 3, height := 1, depth := 1, bits := [128, 0, 0, 0] } =
      .ok (3, 1,
        squeak_colors.getD 1 [] ++ (squeak_colors.getD 0 [] ++ squeak_colors.getD 0 [])) := by
  constructor
  · intro f rows hw hpix hlen
    simp only [Form.to_array, hpix]
    rw [toArrayGo_rows f.width f.skipOf hw rows hlen]
  · rfl

/-- Witness for C5's general clause at a depth-8 form of width 3 (skip 1):
four decoded indices per row, the last discarded. -/
theorem C5_row_padding_skip_witness :
    Form.to_array { width := 3, height := 1, depth := 8, bits := [0, 0, 0, 0] } =
      .ok (3, 1,
        (([[[255, 255, 255, 0], [255, 255, 255, 0], [255, 255, 255, 0],
            [255, 255, 255, 0]]].map (fun row => row.take 3)).flatten).flatten) := by
  have h := C5_row_padding_skip.1
    { width := 3, height := 1, depth := 8, bits := [0, 0, 0, 0] }
    [[[255, 255, 255, 0], [255, 255, 255, 0], [255, 255, 255, 0], [255, 255, 255, 0]]]
    (by decide) (by rfl) (by decide)
  exact h

/-! ### Depth-32 round-trip lemmas -/

lemma roundtrip_aux (w h : Nat) :
    ∀ px : List Nat, 4 ∣ px.length → (∀ b ∈ px, b < 256) →
      ∃ raw es, buildRaw px = some raw ∧
        Form.toPixels { width := w, height := h, depth := 32, bits := raw } = .ok es ∧
        es.flatten = fixRGBA px ∧ (fixRGBA px).length = px.length ∧
        ∀ b ∈ fixRGBA px, b < 256 := by
  intro px
  induction px using buildRaw.induct with
  | case1 =>
    intro _ _
    refine ⟨[], [], rfl, rfl, rfl, rfl, ?_⟩
    simp only [show fixRGBA [] = [] from rfl]
    simp
  | case2 r g b a rest hcond ih =>
    intro hdvd hb
    have hdvd' : 4 ∣ rest.length := by
      simp only [List.length_cons] at hdvd ⊢
      omega
    have hb' : ∀ x ∈ rest, x < 256 := fun x hx => hb x (by simp [hx])
    obtain ⟨raw, es, hraw, hpix, hflat, hfixlen, hfixb⟩ := ih hdvd' hb'
    refine ⟨a :: r :: g :: b :: raw,
      [r, g, b, if a = 0 ∧ (0 < r ∨ 0 < g ∨ 0 < b) then 255 else a] :: es,
      ?_, ?_, ?_, ?_, ?_⟩
    · simp [buildRaw, hcond, hraw]
    · simp only [Form.toPixels, if_true] at hpix ⊢
      simp only [chunks4]
      cases hc : chunks4 raw with
      | error e => rw [hc] at hpix; simp [Except.map] at hpix
      | ok cs =>
        rw [hc] at hpix
        simp only [Except.map] at hpix ⊢
        simp only [Except.ok.injEq] at hpix
        simp [hpix]
    · simp [fixRGBA, hflat]
    · simp only [fixRGBA, List.length_cons, hfixlen]
    · intro x hx
      simp only [fixRGBA, List.mem_cons] at hx
      have hr : r < 256 := hb r (by simp)
      have hg : g < 256 := hb g (by simp)
      have hbb : b < 256 := hb b (by simp)
      have ha : a < 256 := hb a (by simp)
      rcases hx with h1 | h1 | h1 | h1 | h1
      · omega
      · omega
      · omega
      · split at h1 <;> omega
      · exact hfixb x h1
  | case3 r g b a rest hcond =>
    intro _ hb
    exfalso
    apply hcond
    exact ⟨hb r (by simp), hb g (by simp), hb b (by simp), hb a (by simp)⟩
  | case4 px hnil hcons =>
    intro hdvd _
    exfalso
    rcases px with _ | ⟨x, _ | ⟨y, _ | ⟨z, _ | ⟨u, rest⟩⟩⟩⟩
    · exact hnil rfl
    · simp only [List.length_cons, List.length_nil] at hdvd
      omega
    · simp only [List.length_cons, List.length_nil] at hdvd
      omega
    · simp only [List.length_cons, List.length_nil] at hdvd
      omega
    · exact hcons x y z u rest rfl

/-- C9: the depth-32 round trip.  For every `w`, `h` and RGBA byte array
`px` of length `4*w*h` (bytes < 256), `from_array(w, h, px)` succeeds,
its `to_array()` returns exactly `px` with every pixel whose alpha was 0
beside a nonzero channel coming back with alpha 255 (all other bytes and
the pixel order unchanged, captured by `fixRGBA`), and feeding that
result back to `from_array` again succeeds with a depth-32 Form. -/
theorem C9_roundtrip_depth32 :
    ∀ (w h : Nat) (px : List Nat),
      px.length = 4 * w * h → (∀ b ∈ px, b < 256) →
      ∃ f f2 : Form,
        Form.from_array w h px = some f ∧
        f.to_array = .ok (w, h, fixRGBA px) ∧
        Form.from_array w h (fixRGBA px) = some f2 ∧
        f2.width = w ∧ f2.height = h ∧ f2.depth = 32 := by
  intro w h px hlen hb
  have hdvd : 4 ∣ px.length := ⟨w * h, by rw [hlen, Nat.mul_assoc]⟩
  obtain ⟨raw, es, hraw, hpix, hflat, hfixlen, hfixb⟩ := roundtrip_aux w h px hdvd hb
  have hdvd2 : 4 ∣ (fixRGBA px).length := by rw [hfixlen]; exact hdvd
  obtain ⟨raw2, es2, hraw2, _, _, _, _⟩ := roundtrip_aux w h (fixRGBA px) hdvd2 hfixb
  refine ⟨{ width := w, height := h, depth := 32, bits := raw },
    { width := w, height := h, depth := 32, bits := raw2 }, ?_, ?_, ?_, rfl, rfl, rfl⟩
  · simp [Form.from_array, hraw]
  · simp only [Form.to_array, hpix]
    have hskip : Form.skipOf { width := w, height := h, depth := 32, bits := raw } = 0 := rfl
    rw [hskip]
    simp only [toArrayGo]
    rw [toArrayGoF_skip_zero w es.length es 0 le_rfl]
    simp [hflat]
  · simp [Form.from_array, hraw2]

/-- Witness for C9 at `w=1, h=2` with a forgotten-alpha first pixel. -/
theorem C9_roundtrip_depth32_witness :
    ∃ f f2 : Form,
      Form.from_array 1 2 [1, 2, 3, 0, 5, 6, 7, 8] = some f ∧
      f.to_array = .ok (1, 2, [1, 2, 3, 255, 5, 6, 7, 8]) ∧
      Form.from_array 1 2 [1, 2, 3, 255, 5, 6, 7, 8] = some f2 ∧
      f2.width = 1 ∧ f2.height = 2 ∧ f2.depth = 32 := by
  have h := C9_roundtrip_depth32 1 2 [1, 2, 3, 0, 5, 6, 7, 8] (by decide) (by decide)
  have hfix : fixRGBA [1, 2, 3, 0, 5, 6, 7, 8] = [1, 2, 3, 255, 5, 6, 7, 8] := rfl
  rw [hfix] at h
  exact h

end Kurt
